import Mathlib

/-!
Verification of the qparser query-expression parser and predicate builder.

Go strings are modelled as `List Char`; Go's `strings.Split` (non-empty
separator, leftmost non-overlapping occurrences) and `strings.Join` are
modelled by `goSplit` and `goJoin` below.  Fallible Go functions returning
`(T, error)` are modelled as `Except Str T`, carrying the exact error
message strings of the source.
-/

set_option maxHeartbeats 1000000

namespace qparser

/-- Go strings, modelled as lists of characters. -/
abbrev Str := List Char

/-- Whether the first list is an initial segment of the second
(the test Go's Split performs at each candidate position). -/
def leadsWith : Str → Str → Bool
  | [], _ => true
  | _ :: _, [] => false
  | a :: as, b :: bs => a == b && leadsWith as bs

/-- Leftmost occurrence of `sep` in `s`: returns the part before the
occurrence and the part after it, or `none` when `sep` does not occur. -/
def findSplit (sep : Str) : Str → Option (Str × Str)
  | [] => none
  | c :: rest =>
    if leadsWith sep (c :: rest) then some ([], (c :: rest).drop sep.length)
    else
      match findSplit sep rest with
      | none => none
      | some (pre, post) => some (c :: pre, post)

/-- Fuel-indexed worker for `goSplit`; `fuel` bounds the number of
separator occurrences processed and is chosen large enough in `goSplit`. -/
def goSplitF (sep : Str) : Nat → Str → List Str
  | 0, s => [s]
  | fuel + 1, s =>
    match findSplit sep s with
    | none => [s]
    | some (pre, post) => pre :: goSplitF sep fuel post

/-- Go `strings.Split s sep` for a non-empty separator: cut `s` at every
leftmost non-overlapping occurrence of `sep`. -/
def goSplit (sep s : Str) : List Str := goSplitF sep (s.length + 1) s

/-- Go `strings.Join xs sep`. -/
def goJoin (sep : Str) : List Str → Str
  | [] => []
  | [x] => x
  | x :: y :: rest => x ++ sep ++ goJoin sep (y :: rest)

/-! Operator short codes (the wire-level mini-language), src/model.go lines 3-12. -/

def operatorEqual : Str := ("eq").data
def operatorNotEqual : Str := ("neq").data
def operatorGreaterThan : Str := ("gt").data
def operatorGreaterThanEqual : Str := ("gte").data
def operatorLowerThan : Str := ("lt").data
def operatorLowerThanEqual : Str := ("lte").data
def operatorLike : Str := ("like").data
def operatorRange : Str := ("rng").data

/-! SQL operator symbols, src/model.go lines 14-23. -/

def sqlOperatorEqual : Str := ("=").data
def sqlOperatorNotEqual : Str := ("<>").data
def sqlOperatorGreaterThan : Str := (">").data
def sqlOperatorGreaterThanEqual : Str := (">=").data
def sqlOperatorLowerThan : Str := ("<").data
def sqlOperatorLowerThanEqual : Str := ("<=").data
def sqlOperatorLike : Str := ("ILIKE").data
def sqlOperatorRange : Str := ("BETWEEN").data

/-- A parsed filter entry, src/model.go lines 25-29. -/
structure Field where
  Name : Str
  Value : Str
  Operator : Str
deriving DecidableEq

/-- The accumulated filter set with pagination, src/model.go lines 31-35. -/
structure Options where
  limit : Int
  offset : Int
  fields : List Field
deriving DecidableEq

/-- Decidable equality of modelled Go results, so that concrete runs of
the parser and builder can be checked by evaluation. -/
instance {ε α : Type} [DecidableEq ε] [DecidableEq α] : DecidableEq (Except ε α) := fun x y =>
  match x, y with
  | .error a, .error b => decidable_of_iff (a = b) (by simp)
  | .error _, .ok _ => isFalse (by simp)
  | .ok _, .error _ => isFalse (by simp)
  | .ok a, .ok b => decidable_of_iff (a = b) (by simp)

/-! Error message strings of the source. -/

def errMalformedQuery : Str := ("bad query, use operator:value").data
def errBadOperator : Str := ("bad operator").data
def errInvalidRange : Str := ("invalid usage of operator rng. rng:value1:to:value2").data
def errParseLimit : Str := ("failed to parse limit").data
def errLimitNegative : Str := ("limit must be greater than 0").data
def errParseOffset : Str := ("failed to parse offset").data
def errOffsetNegative : Str := ("offset must be greater than 0").data

/-- convertOperator, src/model.go lines 183-204: maps an operator short
code to its SQL symbol, or fails. -/
def convertOperator (operator : Str) : Except Str Str :=
  if operator = operatorEqual then .ok sqlOperatorEqual
  else if operator = operatorNotEqual then .ok sqlOperatorNotEqual
  else if operator = operatorGreaterThan then .ok sqlOperatorGreaterThan
  else if operator = operatorGreaterThanEqual then .ok sqlOperatorGreaterThanEqual
  else if operator = operatorLowerThan then .ok sqlOperatorLowerThan
  else if operator = operatorLowerThanEqual then .ok sqlOperatorLowerThanEqual
  else if operator = operatorLike then .ok sqlOperatorLike
  else if operator = operatorRange then .ok sqlOperatorRange
  else .error errBadOperator

/-- The fixed set of supported SQL operator symbols (the cases of the
validateOperator switch, src/model.go lines 165-179). -/
def sqlOperators : List Str :=
  [sqlOperatorEqual, sqlOperatorNotEqual, sqlOperatorGreaterThan,
   sqlOperatorGreaterThanEqual, sqlOperatorLowerThan, sqlOperatorLowerThanEqual,
   sqlOperatorLike, sqlOperatorRange]

/-- validateOperator, src/model.go lines 165-179: the switch with one empty
case per supported symbol is a membership test. -/
def validateOperator (operator : Str) : Except Str Unit :=
  if operator ∈ sqlOperators then .ok () else .error errBadOperator

/-- parseQuery, src/model.go lines 50-71: parse an `operator:value` token.
Go's `args[0]` is `args.headD []`; the length-two check guarantees the
index is in bounds. -/
def parseQuery (name query : Str) : Except Str Field :=
  let args := goSplit ((":").data) query
  if args.length < 2 then .error errMalformedQuery
  else if (goSplit ((" ").data) (args.headD [])).length > 1 then .error errMalformedQuery
  else
    match convertOperator (args.headD []) with
    | .error e => .error e
    | .ok op => .ok ⟨name, goJoin ((" ").data) (args.drop 1), op⟩

/-- AddField, src/model.go lines 214-239: validate the operator, wrap a
pattern-match value in wildcard markers when it has none, split and
re-join a range value, then append the entry.  Go's `args[0]`/`args[1]`
are `getD`; the length-two check guarantees both indices are in bounds. -/
def Options.AddField (o : Options) (name value operator : Str) : Except Str Options :=
  match validateOperator operator with
  | .error e => .error e
  | .ok _ =>
    let v1 := if operator = sqlOperatorLike ∧ ('%') ∉ value
              then ("%").data ++ value ++ ("%").data else value
    if operator = sqlOperatorRange then
      let args := goSplit ((" to ").data) v1
      if args.length = 2 then
        .ok { o with fields :=
          o.fields ++ [⟨name, args.getD 0 [] ++ (" ").data ++ args.getD 1 [], operator⟩] }
      else .error errInvalidRange
    else
      .ok { o with fields := o.fields ++ [⟨name, v1, operator⟩] }

/-- Modelled from the spec: the gorm transaction handle is an external
collaborator; chained `Where` calls accumulate conjunctive conditions in
order, `Offset`/`Limit` set pagination.  A condition is its SQL text plus
the list of bound parameters. -/
structure Tx where
  conds : List (Str × List Str)
  offset : Option Int
  limit : Option Int
deriving DecidableEq

/-- Modelled from the spec: `tx.Where(cond, args...)` appends one more
conjunctive condition. -/
def Tx.Where (tx : Tx) (cond : Str) (args : List Str) : Tx :=
  { tx with conds := tx.conds ++ [(cond, args)] }

/-- Modelled from the spec: `tx.Offset(n)` sets the transaction's offset. -/
def Tx.Offset (tx : Tx) (n : Int) : Tx := { tx with offset := some n }

/-- Modelled from the spec: `tx.Limit(n)` sets the transaction's limit. -/
def Tx.Limit (tx : Tx) (n : Int) : Tx := { tx with limit := some n }

/-- A fresh transaction with no conditions and no pagination set. -/
def txEmpty : Tx := ⟨[], none, none⟩

/-- The body of Apply's loop over one entry, src/model.go lines 248-257.
Go reads `args[0]` and `args[1]`; a Range value stored by AddField always
contains a space, so both indices are in bounds there; `getD` totalises. -/
def applyStep (tx : Tx) (option : Field) : Tx :=
  if option.Operator = sqlOperatorRange then
    let args := goSplit ((" ").data) option.Value
    tx.Where (option.Name ++ (" ").data ++ option.Operator ++ (" ? AND ?").data)
      [args.getD 0 [], args.getD 1 []]
  else
    tx.Where (option.Name ++ (" ").data ++ option.Operator ++ (" ?").data) [option.Value]

/-- Apply, src/model.go lines 247-268: attach every entry's condition in
insertion order, then set offset, limit when positive, and offset again. -/
def Options.Apply (o : Options) (tx : Tx) : Tx :=
  let tx1 := o.fields.foldl applyStep tx
  let tx2 := tx1.Offset o.offset
  let tx3 := if o.limit > 0 then tx2.Limit o.limit else tx2
  tx3.Offset o.offset

/-- An Options value as freshly constructed by ParseStruct,
src/model.go lines 84-88. -/
def optionsEmpty : Options := ⟨0, 0, []⟩

/-! ParseStruct, src/model.go lines 80-160.  A record is a list of declared
fields, each carrying its `query` tag and a value whose constructor records
the field's declared Go type (the reflection cases the source
distinguishes: plain int/string/bool and the pointer forms, a nil pointer
being `none`). -/

/-- A field's declared type together with its current value. -/
inductive FieldVal where
  | intVal (n : Int)
  | strVal (s : Str)
  | boolVal (b : Bool)
  | intPtr (n : Option Int)
  | strPtr (s : Option Str)
  | boolPtr (b : Option Bool)
deriving DecidableEq

/-- A dereferenced dynamic value (`reflect.Indirect(value).Interface()`). -/
inductive DynVal where
  | dInt (n : Int)
  | dStr (s : Str)
  | dBool (b : Bool)
deriving DecidableEq

/-- Dereference a field value; `none` is a nil pointer, which ParseStruct
skips (src/model.go lines 94-96). -/
def FieldVal.deref : FieldVal → Option DynVal
  | .intVal n => some (.dInt n)
  | .strVal s => some (.dStr s)
  | .boolVal b => some (.dBool b)
  | .intPtr (some n) => some (.dInt n)
  | .intPtr none => none
  | .strPtr (some s) => some (.dStr s)
  | .strPtr none => none
  | .boolPtr (some b) => some (.dBool b)
  | .boolPtr none => none

/-- Whether the field's declared type is `*bool`
(`field.Type == reflect.TypeOf((*bool)(nil))`, src/model.go line 133). -/
def FieldVal.isBoolPtrType : FieldVal → Bool
  | .boolPtr _ => true
  | _ => false

/-- Go `fmt.Sprint` of a dereferenced value. -/
def DynVal.sprint : DynVal → Str
  | .dInt n => (toString n).data
  | .dStr s => s
  | .dBool true => ("true").data
  | .dBool false => ("false").data

/-- A declared record field: its `query` tag (empty when absent) and its
value. -/
structure RecField where
  tag : Str
  val : FieldVal
deriving DecidableEq

/-- The loop of ParseStruct over the record's declared fields,
src/model.go lines 90-157. -/
def parseStructLoop : List RecField → Options → Except Str Options
  | [], opt => .ok opt
  | f :: rest, opt =>
    match f.val.deref with
    | none => parseStructLoop rest opt
    | some dv =>
      if f.tag = ("limit").data then
        match dv with
        | .dInt l =>
          if l < 0 then .error errLimitNegative
          else parseStructLoop rest { opt with limit := l }
        | _ => .error errParseLimit
      else if f.tag = ("offset").data then
        match dv with
        | .dInt n =>
          if n < 0 then .error errOffsetNegative
          else parseStructLoop rest { opt with offset := n }
        | _ => .error errParseOffset
      else if f.val.isBoolPtrType then
        match opt.AddField f.tag dv.sprint operatorEqual with
        | .error e => .error e
        | .ok opt2 => parseStructLoop rest opt2
      else
        let s := dv.sprint
        if s = [] then parseStructLoop rest opt
        else
          match parseQuery f.tag s with
          | .error e => .error e
          | .ok fld =>
            match opt.AddField fld.Name fld.Value fld.Operator with
            | .error e => .error e
            | .ok opt2 => parseStructLoop rest opt2

/-- ParseStruct, src/model.go lines 80-160. -/
def ParseStruct (recFields : List RecField) : Except Str Options :=
  parseStructLoop recFields optionsEmpty

/-- The condition one entry contributes in Apply's loop: its SQL text and
its bound parameters (for Range, the first two parts of the space-split of
the stored value; otherwise the single stored value). -/
def condOf (f : Field) : Str × List Str :=
  if f.Operator = sqlOperatorRange then
    (f.Name ++ (" ").data ++ f.Operator ++ (" ? AND ?").data,
     [(goSplit ((" ").data) f.Value).getD 0 [], (goSplit ((" ").data) f.Value).getD 1 []])
  else
    (f.Name ++ (" ").data ++ f.Operator ++ (" ?").data, [f.Value])

/-! Auxiliary lemmas about the modelled Go string functions. -/

theorem leadsWith_append (p t : Str) : leadsWith p (p ++ t) = true := by
  induction p with
  | nil => rfl
  | cons a as ih => simp [leadsWith, ih]

theorem drop_length_append (p t : Str) : (p ++ t).drop p.length = t := by
  induction p with
  | nil => rfl
  | cons a as ih => simpa using ih

theorem findSplit_post_lt (sep : Str) (hsep : sep ≠ []) :
    ∀ s pre post : Str, findSplit sep s = some (pre, post) → post.length < s.length := by
  intro s
  induction s with
  | nil => intro pre post h; simp [findSplit] at h
  | cons c rest ih =>
    intro pre post h
    simp only [findSplit] at h
    by_cases hl : leadsWith sep (c :: rest) = true
    · rw [if_pos hl] at h
      obtain ⟨-, h2⟩ := Prod.mk.injEq .. ▸ Option.some.inj h
      subst h2
      have hlen : 1 ≤ sep.length := by
        cases sep with
        | nil => exact absurd rfl hsep
        | cons a as => simp
      simp only [List.length_drop, List.length_cons]
      omega
    · rw [if_neg hl] at h
      cases hf : findSplit sep rest with
      | none => rw [hf] at h; exact absurd h (by simp)
      | some pr =>
        obtain ⟨p2, q2⟩ := pr
        rw [hf] at h
        obtain ⟨-, h2⟩ := Prod.mk.injEq .. ▸ Option.some.inj h
        subst h2
        have := ih p2 q2 hf
        simp only [List.length_cons]
        omega

theorem goSplitF_fuel (sep : Str) (hsep : sep ≠ []) :
    ∀ n m s, s.length < n → s.length < m → goSplitF sep n s = goSplitF sep m s := by
  intro n
  induction n with
  | zero => intro m s h1 h2; omega
  | succ n ih =>
    intro m s h1 h2
    cases m with
    | zero => omega
    | succ m =>
      simp only [goSplitF]
      cases hf : findSplit sep s with
      | none => rfl
      | some pr =>
        obtain ⟨pre, post⟩ := pr
        have hlt := findSplit_post_lt sep hsep s pre post hf
        show pre :: goSplitF sep n post = pre :: goSplitF sep m post
        exact congrArg (pre :: ·) (ih m post (by omega) (by omega))

theorem goSplit_eq (sep : Str) (hsep : sep ≠ []) (s : Str) :
    goSplit sep s =
      match findSplit sep s with
      | none => [s]
      | some (pre, post) => pre :: goSplit sep post := by
  cases hf : findSplit sep s with
  | none =>
    show goSplitF sep (s.length + 1) s = [s]
    simp only [goSplitF, hf]
  | some pr =>
    obtain ⟨pre, post⟩ := pr
    have hlt := findSplit_post_lt sep hsep s pre post hf
    show goSplitF sep (s.length + 1) s = pre :: goSplit sep post
    simp only [goSplitF, hf]
    exact congrArg (pre :: ·)
      (goSplitF_fuel sep hsep s.length (post.length + 1) post (by omega) (by omega))

theorem goSplitF_ne_nil (sep : Str) (n : Nat) (s : Str) : goSplitF sep n s ≠ [] := by
  cases n with
  | zero => simp [goSplitF]
  | succ n =>
    simp only [goSplitF]
    cases hf : findSplit sep s with
    | none => simp
    | some pr => obtain ⟨pre, post⟩ := pr; simp

theorem goSplit_ne_nil (sep s : Str) : goSplit sep s ≠ [] :=
  goSplitF_ne_nil sep (s.length + 1) s

theorem findSplit_none_of_head (c : Char) (sq : Str) :
    ∀ s : Str, c ∉ s → findSplit (c :: sq) s = none := by
  intro s
  induction s with
  | nil => intro _; rfl
  | cons a rest ih =>
    intro h
    have hca : ¬ c = a := fun e => h (by simp [e])
    have hcr : c ∉ rest := fun hm => h (List.mem_cons_of_mem a hm)
    simp only [findSplit, leadsWith]
    rw [if_neg (by simp [hca])]
    rw [ih hcr]

theorem findSplit_append (c : Char) (sq B : Str) :
    ∀ A : Str, c ∉ A → findSplit (c :: sq) (A ++ (c :: sq) ++ B) = some (A, B) := by
  intro A
  induction A with
  | nil =>
    intro _
    have hcons : ([] : Str) ++ (c :: sq) ++ B = c :: (sq ++ B) := by simp
    rw [hcons]
    simp only [findSplit]
    rw [if_pos (by simpa using leadsWith_append (c :: sq) B)]
    simp [drop_length_append sq B]
  | cons a A ih =>
    intro h
    have hca : ¬ c = a := fun e => h (by simp [e])
    have hcA : c ∉ A := fun hm => h (List.mem_cons_of_mem a hm)
    have hcons : (a :: A) ++ (c :: sq) ++ B = a :: (A ++ (c :: sq) ++ B) := by simp
    rw [hcons]
    simp only [findSplit, leadsWith]
    rw [if_neg (by simp [hca])]
    rw [ih hcA]

theorem goSplit_of_notMem (c : Char) (sq s : Str) (h : c ∉ s) :
    goSplit (c :: sq) s = [s] := by
  rw [goSplit_eq (c :: sq) (by simp) s, findSplit_none_of_head c sq s h]

theorem goSplit_append (c : Char) (sq A B : Str) (h : c ∉ A) :
    goSplit (c :: sq) (A ++ (c :: sq) ++ B) = A :: goSplit (c :: sq) B := by
  rw [goSplit_eq (c :: sq) (by simp), findSplit_append c sq B A h]

theorem findSplit_single_of_mem (c : Char) :
    ∀ s : Str, c ∈ s → ∃ pre post, findSplit [c] s = some (pre, post) := by
  intro s
  induction s with
  | nil => intro h; simp at h
  | cons a rest ih =>
    intro h
    by_cases hca : c = a
    · subst hca
      refine ⟨[], rest, ?_⟩
      simp [findSplit, leadsWith]
    · have hm : c ∈ rest := by
        rcases List.mem_cons.1 h with h1 | h1
        · exact absurd h1 hca
        · exact h1
      obtain ⟨pre, post, hf⟩ := ih hm
      refine ⟨a :: pre, post, ?_⟩
      simp only [findSplit, leadsWith]
      rw [if_neg (by simp [hca]), hf]

theorem findSplit_single_eq (c : Char) :
    ∀ s pre post : Str, findSplit [c] s = some (pre, post) →
      s = pre ++ c :: post ∧ c ∉ pre := by
  intro s
  induction s with
  | nil => intro pre post h; simp [findSplit] at h
  | cons a rest ih =>
    intro pre post h
    by_cases hca : c = a
    · subst hca
      simp only [findSplit, leadsWith] at h
      rw [if_pos (by simp)] at h
      obtain ⟨h1, h2⟩ := Prod.mk.injEq .. ▸ Option.some.inj h
      subst h1
      subst h2
      simp
    · simp only [findSplit, leadsWith] at h
      rw [if_neg (by simp [hca])] at h
      cases hf : findSplit [c] rest with
      | none => rw [hf] at h; exact absurd h (by simp)
      | some pr =>
        obtain ⟨p2, q2⟩ := pr
        rw [hf] at h
        obtain ⟨h1, h2⟩ := Prod.mk.injEq .. ▸ Option.some.inj h
        subst h1
        subst h2
        obtain ⟨hseq, hnp⟩ := ih p2 q2 hf
        constructor
        · simp [hseq]
        · simp [hca, hnp]

theorem goSplit_length_gt_one (c : Char) (s : Str) :
    1 < (goSplit [c] s).length ↔ c ∈ s := by
  constructor
  · intro hlen
    by_contra hm
    rw [goSplit_of_notMem c [] s hm] at hlen
    simp at hlen
  · intro hm
    obtain ⟨pre, post, hf⟩ := findSplit_single_of_mem c s hm
    rw [goSplit_eq [c] (by simp) s, hf]
    have := List.length_pos.2 (goSplit_ne_nil [c] post)
    simp only [List.length_cons]
    omega

theorem map_subst_of_notMem (c d : Char) :
    ∀ s : Str, c ∉ s → s.map (fun x => if x = c then d else x) = s := by
  intro s
  induction s with
  | nil => intro _; rfl
  | cons a rest ih =>
    intro h
    have hca : ¬ a = c := fun e => h (by simp [e])
    have hcr : c ∉ rest := fun hm => h (List.mem_cons_of_mem a hm)
    simp [hca, ih hcr]

theorem goJoin_cons (sep x : Str) (l : List Str) (h : l ≠ []) :
    goJoin sep (x :: l) = x ++ sep ++ goJoin sep l := by
  cases l with
  | nil => exact absurd rfl h
  | cons y r => rfl

theorem goJoin_goSplit_bound (c d : Char) :
    ∀ n, ∀ s : Str, s.length ≤ n →
      goJoin [d] (goSplit [c] s) = s.map (fun x => if x = c then d else x) := by
  intro n
  induction n with
  | zero =>
    intro s hs
    have : s = [] := List.length_eq_zero.1 (by omega)
    subst this
    rfl
  | succ n ih =>
    intro s hs
    by_cases hm : c ∈ s
    · obtain ⟨pre, post, hf⟩ := findSplit_single_of_mem c s hm
      obtain ⟨hseq, hcpre⟩ := findSplit_single_eq c s pre post hf
      rw [goSplit_eq [c] (by simp) s, hf]
      rw [goJoin_cons [d] pre (goSplit [c] post) (goSplit_ne_nil [c] post)]
      have hplen : post.length ≤ n := by
        have : s.length = pre.length + (post.length + 1) := by simp [hseq]
        omega
      rw [ih post hplen]
      subst hseq
      simp [map_subst_of_notMem c d pre hcpre]
    · rw [goSplit_of_notMem c [] s hm]
      simp [goJoin, map_subst_of_notMem c d s hm]

theorem goJoin_goSplit (c d : Char) (s : Str) :
    goJoin [d] (goSplit [c] s) = s.map (fun x => if x = c then d else x) :=
  goJoin_goSplit_bound c d s.length s le_rfl

theorem convertOperator_error (op e : Str) (h : convertOperator op = .error e) :
    e = errBadOperator := by
  unfold convertOperator at h
  split_ifs at h <;> simp_all

theorem applyStep_eq (tx : Tx) (f : Field) :
    applyStep tx f = { tx with conds := tx.conds ++ [condOf f] } := by
  by_cases h : f.Operator = sqlOperatorRange <;> simp [applyStep, condOf, Tx.Where, h]

theorem foldl_applyStep (fs : List Field) :
    ∀ tx : Tx, (fs.foldl applyStep tx).conds = tx.conds ++ fs.map condOf ∧
      (fs.foldl applyStep tx).offset = tx.offset ∧
      (fs.foldl applyStep tx).limit = tx.limit := by
  induction fs with
  | nil => intro tx; simp
  | cons f rest ih =>
    intro tx
    obtain ⟨h1, h2, h3⟩ := ih { tx with conds := tx.conds ++ [condOf f] }
    simp only [List.foldl_cons, List.map_cons, applyStep_eq tx f]
    exact ⟨by simp [h1], by simp [h2], by simp [h3]⟩

/-! The claims. -/

/-- C1, counterexample: the stored value of a reachable Range entry does not
always split into exactly two bound values on the space separator.  Adding the
range value "a b to c" stores "a b c", which splits into three parts; Apply
binds the first two of them ("a", "b"), not a two-part decomposition. -/
theorem Apply_range_three_parts_cex :
    Options.AddField optionsEmpty (("f").data) (("a b to c").data) sqlOperatorRange
      = .ok ⟨0, 0, [⟨("f").data, ("a b c").data, sqlOperatorRange⟩]⟩ ∧
    (goSplit ((" ").data) (("a b c").data)).length = 3 ∧
    (Options.Apply ⟨0, 0, [⟨("f").data, ("a b c").data, sqlOperatorRange⟩]⟩ txEmpty).conds
      = [(("f BETWEEN ? AND ?").data, [("a").data, ("b").data])] := by decide

/-- C1, amended: Apply adds one condition per entry, appended after the
transaction's existing conditions in insertion order (conjunctively): for a
Range entry the condition "<field> BETWEEN ? AND ?" bound to the first two
parts of splitting the stored value on the space separator (exactly the two
bounds whenever neither bound contains an internal space), and for every other
operator the condition "<field> <operator-symbol> ?" bound to the single
value. -/
theorem Apply_conds_in_order (o : Options) (tx : Tx) :
    (o.Apply tx).conds = tx.conds ++ o.fields.map condOf := by
  obtain ⟨h1, -, -⟩ := foldl_applyStep o.fields tx
  by_cases hl : 0 < o.limit <;> simp [Options.Apply, Tx.Offset, Tx.Limit, hl, h1]

/-- C2, counterexample: parseQuery does not preserve further colons in the
value; the segments after the first colon are re-joined with a space, so
parsing "eq:a:b" yields the value "a b", not "a:b". -/
theorem parseQuery_join_cex :
    parseQuery (("f").data) (("eq:a:b").data)
      = .ok ⟨("f").data, ("a b").data, ("=").data⟩ ∧
    ("a b").data ≠ ("a:b").data := by decide

/-- C2, amended: for a query of shape "op:rest" whose operator segment has no
colon and no space, the entry's raw value is the text after the first colon
with every remaining colon replaced by a single space. -/
theorem parseQuery_value_after_colon (name op rest : Str)
    (h1 : (':') ∉ op) (h2 : (' ') ∉ op) :
    parseQuery name (op ++ (":").data ++ rest)
      = (convertOperator op).map
          (fun sym =>
            (⟨name, rest.map (fun ch => if ch = ':' then ' ' else ch), sym⟩ : Field)) := by
  have hsplit : goSplit ([':'] : Str) (op ++ ([':'] : Str) ++ rest)
      = op :: goSplit ([':'] : Str) rest := goSplit_append ':' [] op rest h1
  have hop : goSplit ([' '] : Str) op = [op] := goSplit_of_notMem ' ' [] op h2
  have hjoin : goJoin ([' '] : Str) (goSplit ([':'] : Str) rest)
      = rest.map (fun ch => if ch = ':' then ' ' else ch) := goJoin_goSplit ':' ' ' rest
  have hlen : ¬ (op :: goSplit ([':'] : Str) rest).length < 2 := by
    have hpos := List.length_pos.2 (goSplit_ne_nil ([':'] : Str) rest)
    rw [List.length_cons]
    omega
  show parseQuery name (op ++ ([':'] : Str) ++ rest)
      = (convertOperator op).map
          (fun sym =>
            (⟨name, rest.map (fun ch => if ch = ':' then ' ' else ch), sym⟩ : Field))
  simp only [parseQuery, hsplit, List.headD_cons]
  rw [if_neg hlen, if_neg (by simp [hop])]
  simp only [List.drop_succ_cons, List.drop_zero, hjoin]
  cases hco : convertOperator op with
  | error e => simp [Except.map]
  | ok sym => simp [Except.map]

/-- C2, witness: the amended statement at name "f", operator segment "eq",
remainder "a:b". -/
theorem parseQuery_value_after_colon_w :
    ((':') ∉ ("eq").data ∧ (' ') ∉ ("eq").data) ∧
    parseQuery (("f").data) (("eq").data ++ (":").data ++ ("a:b").data)
      = (convertOperator (("eq").data)).map
          (fun sym =>
            (⟨("f").data, (("a:b").data).map (fun ch => if ch = ':' then ' ' else ch),
              sym⟩ : Field)) :=
  ⟨⟨by decide, by decide⟩,
   parseQuery_value_after_colon (("f").data) (("eq").data) (("a:b").data)
     (by decide) (by decide)⟩

/-- C3, counterexample: AddField does not reject range bounds that are empty;
the value " to b" splits on " to " into the two parts "" and "b" and is
accepted, storing " b". -/
theorem AddField_range_empty_part_cex :
    Options.AddField optionsEmpty (("f").data) ((" to b").data) sqlOperatorRange
      = .ok ⟨0, 0, [⟨("f").data, (" b").data, sqlOperatorRange⟩]⟩ ∧
    goSplit ((" to ").data) ((" to b").data) = [[], ("b").data] := by decide

/-- C3, amended: with the Range operator, AddField fails with
InvalidRangeFormat exactly when splitting the value on " to " does not yield
exactly two parts; the parts may be empty (emptiness is not checked), and on
success the two parts are re-joined with a single space as the stored
value. -/
theorem AddField_range_two_parts (o : Options) (name value : Str) :
    Options.AddField o name value sqlOperatorRange
      = (if (goSplit ((" to ").data) value).length = 2 then
           .ok { o with fields := o.fields ++
             [⟨name,
               (goSplit ((" to ").data) value).getD 0 [] ++ (" ").data ++
                 (goSplit ((" to ").data) value).getD 1 [],
               sqlOperatorRange⟩] }
         else .error errInvalidRange) := by
  have hv : validateOperator sqlOperatorRange = .ok () := by decide
  have hne : ¬ (sqlOperatorRange = sqlOperatorLike ∧ ('%') ∉ value) :=
    fun hh => absurd hh.1 (by decide)
  simp only [Options.AddField, hv]
  rw [if_neg hne]
  simp only [if_true]

/-- C4, counterexample: the round-trip fails for bounds with internal spaces;
the range value "x y to z" is stored as "x y z", and re-splitting the stored
value at application time yields ["x", "y", "z"], not the bounds
["x y", "z"]. -/
theorem range_roundtrip_cex :
    Options.AddField optionsEmpty (("f").data) (("x y to z").data) sqlOperatorRange
      = .ok ⟨0, 0, [⟨("f").data, ("x y z").data, sqlOperatorRange⟩]⟩ ∧
    goSplit ((" ").data) (("x y z").data) ≠ [("x y").data, ("z").data] := by decide

/-- C4, amended: for Range values of shape "A to B" with non-empty A and B
that contain no space character, AddField stores "A B" and re-splitting the
stored value on the space separator recovers exactly the pair (A, B). -/
theorem range_roundtrip (A B : Str) (hA : A ≠ []) (hB : B ≠ [])
    (hA2 : (' ') ∉ A) (hB2 : (' ') ∉ B) (o : Options) (name : Str) :
    Options.AddField o name (A ++ (" to ").data ++ B) sqlOperatorRange
      = .ok { o with fields :=
          o.fields ++ [⟨name, A ++ (" ").data ++ B, sqlOperatorRange⟩] } ∧
    goSplit ((" ").data) (A ++ (" ").data ++ B) = [A, B] := by
  have hsp1 : goSplit ([' ', 't', 'o', ' '] : Str) (A ++ ([' ', 't', 'o', ' '] : Str) ++ B)
      = [A, B] := by
    rw [goSplit_append ' ' ['t', 'o', ' '] A B hA2,
        goSplit_of_notMem ' ' ['t', 'o', ' '] B hB2]
  have hsp2 : goSplit ([' '] : Str) (A ++ ([' '] : Str) ++ B) = [A, B] := by
    rw [goSplit_append ' ' [] A B hA2, goSplit_of_notMem ' ' [] B hB2]
  refine ⟨?_, hsp2⟩
  have hv : validateOperator sqlOperatorRange = .ok () := by decide
  have hne : ¬ (sqlOperatorRange = sqlOperatorLike ∧
      ('%') ∉ (A ++ ([' ', 't', 'o', ' '] : Str) ++ B)) :=
    fun hh => absurd hh.1 (by decide)
  show Options.AddField o name (A ++ ([' ', 't', 'o', ' '] : Str) ++ B) sqlOperatorRange
      = .ok { o with fields :=
          o.fields ++ [⟨name, A ++ ([' '] : Str) ++ B, sqlOperatorRange⟩] }
  simp only [Options.AddField, hv]
  rw [if_neg hne]
  simp only [if_true]
  rw [hsp1]
  simp

/-- C4, witness: the amended statement at bounds "1" and "2". -/
theorem range_roundtrip_w :
    (("1").data ≠ ([] : Str) ∧ ("2").data ≠ ([] : Str) ∧
      (' ') ∉ ("1").data ∧ (' ') ∉ ("2").data) ∧
    (Options.AddField optionsEmpty (("f").data)
        (("1").data ++ (" to ").data ++ ("2").data) sqlOperatorRange
      = .ok { optionsEmpty with fields := optionsEmpty.fields ++
          [⟨("f").data, ("1").data ++ (" ").data ++ ("2").data, sqlOperatorRange⟩] } ∧
     goSplit ((" ").data) (("1").data ++ (" ").data ++ ("2").data)
       = [("1").data, ("2").data]) :=
  ⟨⟨by decide, by decide, by decide, by decide⟩,
   range_roundtrip (("1").data) (("2").data) (by decide) (by decide) (by decide)
     (by decide) optionsEmpty (("f").data)⟩

/-- C5, code-bug evidence: a boolean field never becomes an Equal entry.  A
non-nil pointer-to-bool field tagged "active" makes ParseStruct fail with
"bad operator", because the boolean branch passes the short code "eq" to
AddField, which validates against the SQL symbols; a plain bool field misses
the pointer-to-bool type test and fails parsing "true" as an operator:value
token. -/
theorem ParseStruct_bool_always_errors :
    ParseStruct [⟨("active").data, .boolPtr (some true)⟩] = .error errBadOperator ∧
    validateOperator operatorEqual = .error errBadOperator ∧
    ParseStruct [⟨("active").data, .boolVal true⟩] = .error errMalformedQuery := by decide

/-- C6, counterexample: a field with an empty query tag is not ignored; with
the string value "eq:5" it contributes a filter entry whose field name is the
empty string. -/
theorem ParseStruct_empty_tag_cex :
    ParseStruct [⟨[], .strVal (("eq:5").data)⟩]
      = .ok ⟨0, 0, [⟨[], ("5").data, ("=").data⟩]⟩ := by decide

/-- C6, amended: a string field with an empty query tag and a non-empty value
is processed like any other filter field, with the empty string as the field
name: ParseStruct on it is exactly parseQuery followed by AddField. -/
theorem ParseStruct_empty_tag_processed (s : Str) (h : s ≠ []) :
    ParseStruct [⟨[], .strVal s⟩]
      = (parseQuery [] s).bind
          (fun f => Options.AddField optionsEmpty f.Name f.Value f.Operator) := by
  have ht1 : ¬ (([] : Str) = ("limit").data) := by decide
  have ht2 : ¬ (([] : Str) = ("offset").data) := by decide
  simp only [ParseStruct, parseStructLoop, FieldVal.deref, FieldVal.isBoolPtrType,
    DynVal.sprint]
  rw [if_neg ht1, if_neg ht2, if_neg (by simp), if_neg h]
  cases hpq : parseQuery [] s with
  | error e => simp [hpq, Except.bind]
  | ok f =>
    cases haf : Options.AddField optionsEmpty f.Name f.Value f.Operator with
    | error e => simp [hpq, haf, Except.bind, parseStructLoop]
    | ok o2 => simp [hpq, haf, Except.bind, parseStructLoop]

/-- C6, witness: the amended statement at the value "eq:7". -/
theorem ParseStruct_empty_tag_processed_w :
    ("eq:7").data ≠ ([] : Str) ∧
    ParseStruct [⟨[], .strVal (("eq:7").data)⟩]
      = (parseQuery [] (("eq:7").data)).bind
          (fun f => Options.AddField optionsEmpty f.Name f.Value f.Operator) :=
  ⟨by decide, ParseStruct_empty_tag_processed (("eq:7").data) (by decide)⟩

/-- C7, counterexample: a tab in the operator segment does not trigger
MalformedQuery; the query "e\tq:v" passes the space-only guard and instead
fails later as an unknown operator ("bad operator"), a different error. -/
theorem parseQuery_tab_cex :
    parseQuery (("f").data) (("e\tq:v").data) = .error errBadOperator ∧
    errBadOperator ≠ errMalformedQuery ∧
    ('\t') ∈ ("e\tq").data ∧ ('\t').isWhitespace = true := by decide

/-- C7, amended: parseQuery fails with MalformedQuery exactly when the query
contains no colon, or when the operator segment (the text before the first
colon) contains a space character; other whitespace characters do not trigger
this failure. -/
theorem parseQuery_malformed_iff (name query : Str) :
    parseQuery name query = .error errMalformedQuery ↔
      ((':') ∉ query ∨ (' ') ∈ (goSplit ((":").data) query).headD []) := by
  show parseQuery name query = .error errMalformedQuery ↔
      ((':') ∉ query ∨ (' ') ∈ (goSplit ([':'] : Str) query).headD [])
  by_cases hc : (':') ∈ query
  · have hlen : 1 < (goSplit ([':'] : Str) query).length :=
      (goSplit_length_gt_one ':' query).2 hc
    by_cases hs : (' ') ∈ (goSplit ([':'] : Str) query).headD []
    · have hsl : 1 < (goSplit ([' '] : Str) ((goSplit ([':'] : Str) query).headD [])).length :=
        (goSplit_length_gt_one ' ' _).2 hs
      simp only [parseQuery]
      rw [if_neg (by omega), if_pos (by omega)]
      exact ⟨fun _ => Or.inr hs, fun _ => rfl⟩
    · have hsl : ¬ 1 < (goSplit ([' '] : Str) ((goSplit ([':'] : Str) query).headD [])).length :=
        fun hh => hs ((goSplit_length_gt_one ' ' _).1 hh)
      simp only [parseQuery]
      rw [if_neg (by omega), if_neg (by omega)]
      cases hco : convertOperator ((goSplit ([':'] : Str) query).headD []) with
      | error e =>
        have he := convertOperator_error _ e hco
        subst he
        simp only [hco]
        constructor
        · intro hh
          exact absurd (Except.error.inj hh) (by decide)
        · intro hh
          rcases hh with hh | hh
          · exact absurd hc hh
          · exact absurd hh hs
      | ok sym =>
        simp only [hco]
        constructor
        · intro hh; exact absurd hh (by simp)
        · intro hh
          rcases hh with hh | hh
          · exact absurd hc hh
          · exact absurd hh hs
  · have hone : (goSplit ([':'] : Str) query).length = 1 := by
      have hp := List.length_pos.2 (goSplit_ne_nil ([':'] : Str) query)
      have h2 : ¬ 1 < (goSplit ([':'] : Str) query).length :=
        fun hh => hc ((goSplit_length_gt_one ':' query).1 hh)
      omega
    simp only [parseQuery]
    rw [if_pos (by omega)]
    exact ⟨fun _ => Or.inl hc, fun _ => rfl⟩

/-- C8: after Apply, the transaction's offset equals the FilterSet's offset,
set unconditionally; the limit is set only when the FilterSet's limit is
strictly positive, a zero limit leaving the transaction's limit untouched; in
particular a FilterSet with no entries, limit 0 and offset 5 applied to a
fresh transaction yields offset 5, no limit and no conditions. -/
theorem Apply_pagination (o : Options) (tx : Tx) :
    (o.Apply tx).offset = some o.offset ∧
    (o.Apply tx).limit = (if 0 < o.limit then some o.limit else tx.limit) ∧
    Options.Apply ⟨0, 5, []⟩ txEmpty = ⟨[], some 5, none⟩ := by
  refine ⟨?_, ?_, by decide⟩
  · by_cases hl : 0 < o.limit <;> simp [Options.Apply, Tx.Offset, Tx.Limit, hl]
  · obtain ⟨-, -, h3⟩ := foldl_applyStep o.fields tx
    by_cases hl : 0 < o.limit <;> simp [Options.Apply, Tx.Offset, Tx.Limit, hl, h3]

/-- C9: with the Like operator, AddField appends the value wrapped as
marker+value+marker when it contains no wildcard marker and unchanged when it
already contains one; and AddField preserves the invariant that every
Like-operator entry's value contains at least one wildcard marker. -/
theorem AddField_like_marker (o : Options) (name value operator : Str) (o2 : Options)
    (hinv : ∀ f ∈ o.fields, f.Operator = sqlOperatorLike → ('%') ∈ f.Value)
    (h : Options.AddField o name value operator = .ok o2) :
    (operator = sqlOperatorLike →
      o2 = { o with fields := o.fields ++
        [⟨name,
          if ('%') ∈ value then value else ("%").data ++ value ++ ("%").data,
          sqlOperatorLike⟩] }) ∧
    (∀ f ∈ o2.fields, f.Operator = sqlOperatorLike → ('%') ∈ f.Value) := by
  by_cases hval : operator ∈ sqlOperators
  · have hv : validateOperator operator = .ok () := by
      simp [validateOperator, hval]
    simp only [Options.AddField, hv] at h
    by_cases hlike : operator = sqlOperatorLike
    · subst hlike
      rw [if_neg (show ¬ (sqlOperatorLike = sqlOperatorRange) by decide)] at h
      by_cases hm : ('%') ∈ value
      · rw [if_neg (show ¬ (sqlOperatorLike = sqlOperatorLike ∧ ('%') ∉ value) from
          fun hh => hh.2 hm)] at h
        have ho2 : o2 = { o with fields := o.fields ++ [⟨name, value, sqlOperatorLike⟩] } :=
          (Except.ok.inj h).symm
        subst ho2
        refine ⟨fun _ => by simp [hm], ?_⟩
        intro f hf hop
        rcases List.mem_append.1 hf with hf | hf
        · exact hinv f hf hop
        · simp at hf
          subst hf
          exact hm
      · rw [if_pos (show sqlOperatorLike = sqlOperatorLike ∧ ('%') ∉ value from
          ⟨rfl, hm⟩)] at h
        have ho2 : o2 = { o with fields :=
            o.fields ++ [⟨name, (['%'] : Str) ++ value ++ (['%'] : Str), sqlOperatorLike⟩] } :=
          (Except.ok.inj h).symm
        subst ho2
        refine ⟨fun _ => by simp [hm], ?_⟩
        intro f hf hop
        rcases List.mem_append.1 hf with hf | hf
        · exact hinv f hf hop
        · simp at hf
          subst hf
          simp
    · rw [if_neg (show ¬ (operator = sqlOperatorLike ∧ ('%') ∉ value) from
        fun hh => hlike hh.1)] at h
      by_cases hrange : operator = sqlOperatorRange
      · rw [if_pos hrange] at h
        by_cases hl2 : (goSplit ([' ', 't', 'o', ' '] : Str) value).length = 2
        · rw [if_pos hl2] at h
          have ho2 := (Except.ok.inj h).symm
          subst ho2
          refine ⟨fun hh => absurd hh hlike, ?_⟩
          intro f hf hop
          rcases List.mem_append.1 hf with hf | hf
          · exact hinv f hf hop
          · simp at hf
            subst hf
            exact absurd (hrange.symm.trans hop) (by decide)
        · rw [if_neg hl2] at h
          exact absurd h (by simp)
      · rw [if_neg hrange] at h
        have ho2 := (Except.ok.inj h).symm
        subst ho2
        refine ⟨fun hh => absurd hh hlike, ?_⟩
        intro f hf hop
        rcases List.mem_append.1 hf with hf | hf
        · exact hinv f hf hop
        · simp at hf
          subst hf
          exact absurd hop hlike
  · have hv : validateOperator operator = .error errBadOperator := by
      simp [validateOperator, hval]
    simp only [Options.AddField, hv] at h
    exact absurd h (by simp)

/-- C9, witness: adding the unwildcarded value "v" with the Like operator to
an empty FilterSet wraps it as "%v%", and the resulting FilterSet keeps the
marker invariant. -/
theorem AddField_like_marker_w :
    (∀ f ∈ optionsEmpty.fields, f.Operator = sqlOperatorLike → ('%') ∈ f.Value) ∧
    ((sqlOperatorLike = sqlOperatorLike →
        (⟨0, 0, [⟨("n").data, ("%v%").data, sqlOperatorLike⟩]⟩ : Options)
          = { optionsEmpty with fields := optionsEmpty.fields ++
              [⟨("n").data,
                if ('%') ∈ (("v").data : Str) then ("v").data
                else ("%").data ++ ("v").data ++ ("%").data,
                sqlOperatorLike⟩] }) ∧
     (∀ f ∈ (⟨0, 0, [⟨("n").data, ("%v%").data, sqlOperatorLike⟩]⟩ : Options).fields,
        f.Operator = sqlOperatorLike → ('%') ∈ f.Value)) :=
  ⟨by simp [optionsEmpty],
   AddField_like_marker optionsEmpty (("n").data) (("v").data) sqlOperatorLike
     ⟨0, 0, [⟨("n").data, ("%v%").data, sqlOperatorLike⟩]⟩
     (by simp [optionsEmpty]) (by decide)⟩

/-- C10: AddField never validates the field name: for every name, including
the empty string, it fails exactly when the operator is outside the eight SQL
operator symbols or when the operator is Range and the value does not split
into exactly two parts on " to "; every other combination succeeds, appending
exactly one entry and leaving limit and offset unchanged; in particular an
entry with an empty field name can enter the FilterSet. -/
theorem AddField_error_iff (o : Options) (name value operator : Str) :
    ((∃ e, Options.AddField o name value operator = .error e) ↔
      (operator ∉ sqlOperators ∨
        (operator = sqlOperatorRange ∧ (goSplit ((" to ").data) value).length ≠ 2))) ∧
    ((∃ o2, Options.AddField o name value operator = .ok o2 ∧
        o2.fields.length = o.fields.length + 1 ∧
        o2.limit = o.limit ∧ o2.offset = o.offset) ↔
      (operator ∈ sqlOperators ∧
        (operator ≠ sqlOperatorRange ∨ (goSplit ((" to ").data) value).length = 2))) ∧
    Options.AddField optionsEmpty [] (("v").data) sqlOperatorEqual
      = .ok ⟨0, 0, [⟨[], ("v").data, sqlOperatorEqual⟩]⟩ := by
  refine ⟨?_, ?_, by decide⟩ <;>
  · by_cases hval : operator ∈ sqlOperators
    · by_cases hrange : operator = sqlOperatorRange
      · subst hrange
        have hv : validateOperator sqlOperatorRange = .ok () := by decide
        have hnl : ¬ (sqlOperatorRange = sqlOperatorLike) := by decide
        by_cases hl2 : (goSplit ([' ', 't', 'o', ' '] : Str) value).length = 2
        · simp [Options.AddField, hv, hval, hnl, hl2]
        · simp [Options.AddField, hv, hval, hnl, hl2]
      · have hv : validateOperator operator = .ok () := by simp [validateOperator, hval]
        simp [Options.AddField, hv, hval, hrange]
    · have hv : validateOperator operator = .error errBadOperator := by
        simp [validateOperator, hval]
      simp [Options.AddField, hv, hval]

end qparser
